import Mathlib

/-!
Verification of the Zotero citation-annotation core.

This file gives a shallow embedding of the citation engine of the
repository (citation tokenizer, citation node serializer, label
formatter, locale table, label rewriter, mode converter, bibliography
locator, citation-key collector, and the bibliography replace-or-insert
position logic), and proves or refutes the frozen claims about it.

JavaScript host primitives that the source relies on (the regular
expression engine, the whitespace class of the regex dialect,
String.prototype.split and Array.prototype.join) are translated
explicitly below as executable Lean functions over lists of characters,
so that every theorem can also be evaluated on concrete inputs.
-/

/-- Whitespace class of the JavaScript regex dialect (the class written
as a backslash-s in a regex): space, tab, line feed, vertical tab, form
feed, carriage return, NBSP, the Unicode space separators, the line and
paragraph separators and the BOM. -/
def jsWhitespace (c : Char) : Bool :=
  c = ' ' || c = '\t' || c = '\n' || c = '\x0b' || c = '\x0c' || c = '\r' ||
  c = ' ' || c = ' ' ||
  (' ' ≤ c && c ≤ ' ') ||
  c = ' ' || c = ' ' || c = ' ' || c = ' ' ||
  c = '　' || c = '﻿'

/-- Line terminators of JavaScript: the dot of a regex (without the
dot-all flag) matches every character except these. -/
def isLineTerm (c : Char) : Bool :=
  c = '\n' || c = '\r' || c = ' ' || c = ' '

/-- ASCII lower-casing of one character, the fragment of the host
toLowerCase that the two-letter language subtags exercise. -/
def asciiLower (c : Char) : Char :=
  if 'A' ≤ c ∧ c ≤ 'Z' then Char.ofNat (c.toNat + 32) else c

/-- ASCII lower-casing of a string. -/
def asciiLowerStr (s : String) : String :=
  String.mk (s.toList.map asciiLower)

/-- Fuel-indexed splitter implementing the semantics of the host
String.prototype.split with a non-empty string separator: the input is
cut at the leftmost, non-overlapping occurrences of the separator.  The
fuel only serves to make the recursion structural; it is always called
with fuel at least the length of the input, and the zero-fuel branch is
then unreachable. -/
def splitFuel (sep : List Char) : Nat → List Char → List (List Char)
  | _, [] => [[]]
  | 0, s => [s]
  | fuel + 1, c :: rest =>
    if sep ≠ [] ∧ sep.isPrefixOf (c :: rest) then
      [] :: splitFuel sep fuel ((c :: rest).drop sep.length)
    else
      match splitFuel sep fuel rest with
      | [] => [[c]]
      | p :: ps => (c :: p) :: ps

/-- Host String.prototype.split with a non-empty string separator. -/
def jsSplitChars (sep s : List Char) : List (List Char) :=
  splitFuel sep s.length s

/-- Whether `sep` occurs as a contiguous subsequence of `s`. -/
def hasOcc (sep : List Char) : List Char → Bool
  | [] => sep.isPrefixOf []
  | c :: rest => sep.isPrefixOf (c :: rest) || hasOcc sep rest

/-- The split-then-join idiom of the source,
`s.split(old).join(new)`: replaces every (leftmost, non-overlapping)
occurrence of `old` in `s` with `new`. -/
def jsReplaceAll (old new s : String) : String :=
  String.mk (List.intercalate new.toList (jsSplitChars old.toList s.toList))

/-- Test of the narrative-suffix regex of the source (a whitespace
character, an opening parenthesis, four digits, a closing parenthesis,
then only trailing whitespace up to the end of the string).  Because the
regex is anchored at the end by a star of whitespace, it holds exactly
when stripping all trailing whitespace leaves a suffix of the form
whitespace, parenthesized four-digit year. -/
def narTest (l : List Char) : Bool :=
  match l.reverse.dropWhile jsWhitespace with
  | ')' :: r4 :: r3 :: r2 :: r1 :: '(' :: w :: _ =>
    r1.isDigit && r2.isDigit && r3.isDigit && r4.isDigit && jsWhitespace w
  | _ => false

/-! ## The markdown-it token model and the citation tokenizer

The tokenizer pass `parseCitations` of the source walks the children of
every inline block token and rewrites them; the rewrite of one children
list is embedded here.  A markdown-it token is modelled by its type
string, its attribute list and its text content; the remaining host
fields play no role in the rule. -/

/-- One markdown-it inline token: type name, attribute list, content. -/
structure MDToken where
  type : String
  attrs : List (String × String)
  content : String
deriving DecidableEq, Repr

/-- Attribute lookup, the host attrGet: the value of the first attribute
with the given name, or none. -/
def attrGetM (t : MDToken) (name : String) : Option String :=
  (t.attrs.find? (fun p => p.1 = name)).map (fun p => p.2)

/-- Replace-or-append attribute update on an attribute list, the shared
semantics of the host attrSet and of the object spread used by the
editor extension: an existing entry is overwritten in place, a new entry
is appended. -/
def attrsSet (attrs : List (String × String)) (name v : String) :
    List (String × String) :=
  if attrs.any (fun p => p.1 = name) then
    attrs.map (fun p => if p.1 = name then (name, v) else p)
  else
    attrs ++ [(name, v)]

/-- The anchored zotero href regex of the source, a caret, the scheme
literal, a captured group of one or more alphanumerics, a dollar, with
the case-insensitive flag: the whole href must be the scheme followed by
a non-empty alphanumeric key, and the captured key keeps its original
case. -/
def matchZoteroChars : List Char → Option (List Char)
  | c1 :: c2 :: c3 :: c4 :: c5 :: c6 :: ':' :: '/' :: '/' :: rest =>
    if (c1 = 'z' ∨ c1 = 'Z') ∧ (c2 = 'o' ∨ c2 = 'O') ∧ (c3 = 't' ∨ c3 = 'T') ∧
        (c4 = 'e' ∨ c4 = 'E') ∧ (c5 = 'r' ∨ c5 = 'R') ∧ (c6 = 'o' ∨ c6 = 'O') ∧
        rest ≠ [] ∧ rest.all Char.isAlphanum then
      some rest
    else
      none
  | _ => none

/-- String form of the anchored zotero href match. -/
def zoteroMatch (href : String) : Option String :=
  (matchZoteroChars href.toList).map String.mk

/-- The citation token built by the rule: a fresh token of type
citation whose attributes are set, in order, to the captured key, the
link text, an empty title, and a mode classified by the narrative-suffix
regex on the text. -/
def mkCitationTok (key text : String) : MDToken :=
  { type := "citation"
    attrs :=
      attrsSet
        (attrsSet
          (attrsSet
            (attrsSet [] "key" key)
            "text" text)
          "title" "")
        "mode" (if narTest text.toList then "narrative" else "parenthetical")
    content := "" }

/-- The tokenizer pass of the source on the children of one inline
block: every link-open token whose href matches the anchored zotero
pattern and that is immediately followed by a text token and a
link-close token is replaced, together with those two tokens, by one
citation token; every other token is passed through, and a link-open
token whose triple is incomplete is passed through with scanning
resuming at the very next token.  The fuel argument (one unit per loop
iteration of the source, always at least the number of remaining
tokens) only makes the recursion structural; the zero-fuel branch is
unreachable from the entry point below. -/
def parseCitFuel : Nat → List MDToken → List MDToken
  | _, [] => []
  | 0, l => l
  | fuel + 1, tok :: rest =>
    if tok.type = "link_open" then
      match zoteroMatch ((attrGetM tok "href").getD "") with
      | some key =>
        match rest with
        | textTok :: closeTok :: rest2 =>
          if textTok.type = "text" ∧ closeTok.type = "link_close" then
            mkCitationTok key textTok.content :: parseCitFuel fuel rest2
          else
            tok :: parseCitFuel fuel rest
        | _ => tok :: parseCitFuel fuel rest
      | none => tok :: parseCitFuel fuel rest
    else
      tok :: parseCitFuel fuel rest

/-- The tokenizer pass entry point on one children list. -/
def parseCitationsChildren (children : List MDToken) : List MDToken :=
  parseCitFuel children.length children

/-! ## The citation node and its markdown serialization

The citation node stores the attributes key, text, title and mode.  Its
markdown serialization writes a link whose label is the text attribute
when non-empty and otherwise the key.  Re-parsing goes through the host
markdown parser, which turns that link into a link-open, text,
link-close triple; the triple is modelled directly, and the citation
rule above then rewrites it. -/

/-- The attribute record of one citation node. -/
structure CitationRecord where
  key : String
  text : String
  title : String
  mode : String
deriving DecidableEq, Repr

/-- The label used by toMarkdown: the text attribute when truthy
(non-empty), else the key. -/
def citationLabel (r : CitationRecord) : String :=
  if r.text ≠ "" then r.text else r.key

/-- The markdown written by toMarkdown for one citation node. -/
def citationToMarkdown (r : CitationRecord) : String :=
  "[" ++ citationLabel r ++ "](zotero://" ++ r.key ++ ")"

/-- The inline token triple that the host markdown parser produces for
the serialized link: a link-open carrying the href, a text token
carrying the label, and a link-close. -/
def linkTripleFor (r : CitationRecord) : List MDToken :=
  [ { type := "link_open", attrs := [("href", "zotero://" ++ r.key)], content := "" },
    { type := "text", attrs := [], content := citationLabel r },
    { type := "link_close", attrs := [], content := "" } ]

/-- Serialize-then-reparse: the token stream obtained by running the
citation tokenizer on the parsed serialization of one record. -/
def reparseCitation (r : CitationRecord) : List MDToken :=
  parseCitationsChildren (linkTripleFor r)

/-! ## The locale term table and the label formatter -/

/-- The pair of locale-specific vocabulary terms. -/
structure LocaleTerms where
  etAl : String
  and : String
deriving DecidableEq, Repr

/-- The fixed locale override table of the source, in source order. -/
def LOCALE_TERMS : List (String × LocaleTerms) :=
  [ ("hu", { etAl := "és mtsai.", and := "és" }),
    ("pl", { etAl := "i in.",     and := "i"  }),
    ("nl", { etAl := "et al.",    and := "en" }),
    ("de", { etAl := "et al.",    and := "&"  }),
    ("fr", { etAl := "et al.",    and := "&"  }),
    ("es", { etAl := "et al.",    and := "y"  }),
    ("pt", { etAl := "et al.",    and := "e"  }),
    ("it", { etAl := "et al.",    and := "e"  }),
    ("sv", { etAl := "et al.",    and := "&"  }),
    ("fi", { etAl := "ym.",       and := "ja" }),
    ("ro", { etAl := "et al.",    and := "și" }),
    ("cs", { etAl := "et al.",    and := "a"  }),
    ("sk", { etAl := "et al.",    and := "a"  }),
    ("hr", { etAl := "i sur.",    and := "i"  }) ]

/-- The default English pair. -/
def DEFAULT_TERMS : LocaleTerms := { etAl := "et al.", and := "&" }

/-- getLocaleTerms of the source: a falsy locale (absent or empty)
yields the default pair; otherwise the part of the tag before the first
hyphen is lower-cased and looked up in the table, a missing entry again
yielding the default pair. -/
def getLocaleTerms (locale : Option String) : LocaleTerms :=
  match locale with
  | none => DEFAULT_TERMS
  | some l =>
    if l = "" then DEFAULT_TERMS
    else
      let lang := asciiLowerStr (String.mk ((jsSplitChars ['-'] l.toList).headD []))
      (LOCALE_TERMS.lookup lang).getD DEFAULT_TERMS

/-- One creator record of a Zotero item. -/
structure Creator where
  firstName : Option String := none
  lastName : Option String := none
  name : Option String := none
  creatorType : Option String := none
deriving DecidableEq, Repr

/-- The item data fields that the label formatter consults. -/
structure ZoteroItemData where
  title : Option String := none
  date : Option String := none
  creators : Option (List Creator) := none
deriving DecidableEq, Repr

/-- A Zotero item as returned by the search proxy. -/
structure ZoteroItem where
  key : String
  data : ZoteroItemData
deriving DecidableEq, Repr

/-- The author filter of the source: creators whose creatorType is
author, or every creator when the item has exactly one creator. -/
def zAuthors (item : ZoteroItem) : List Creator :=
  let creators := item.data.creators.getD []
  creators.filter (fun c => c.creatorType = some "author" ∨ creators.length = 1)

/-- The double nullish coalescing of the source,
lastName then name then the empty string. -/
def surnameOf (c : Creator) : String :=
  match c.lastName with
  | some s => s
  | none => c.name.getD ""

/-- buildAuthorPart of the source. -/
def buildAuthorPart (item : ZoteroItem) (terms : LocaleTerms) : String :=
  match zAuthors item with
  | [] => "Unknown Author"
  | [a] => surnameOf a
  | [a, b] => surnameOf a ++ " " ++ terms.and ++ " " ++ surnameOf b
  | a :: _ :: _ :: _ => surnameOf a ++ " " ++ terms.etAl

/-- Modelled from the spec: the year fact is derived by the host
JavaScript Date parser, which is not part of this repository; the spec
describes it as a four-digit year or empty, derived externally.  Date
strings beginning with four digits (the only shape the claims exercise)
are modelled as parsing to that four-digit year; anything else as a
failed parse. -/
def jsDateFullYear (d : String) : Option Nat :=
  match d.toList with
  | c1 :: c2 :: c3 :: c4 :: _ =>
    if c1.isDigit ∧ c2.isDigit ∧ c3.isDigit ∧ c4.isDigit then
      some ((((c1.toNat - 48) * 10 + (c2.toNat - 48)) * 10 + (c3.toNat - 48)) * 10
        + (c4.toNat - 48))
    else none
  | _ => none

/-- buildYearPart of the source: an absent or empty date yields the
empty string; otherwise the string form of the parsed full year when
that is truthy, else the first four characters of the date string. -/
def buildYearPart (item : ZoteroItem) : String :=
  match item.data.date with
  | none => ""
  | some d =>
    if d = "" then ""
    else
      match jsDateFullYear d with
      | some y => if y ≠ 0 then toString y else String.mk (d.toList.take 4)
      | none => String.mk (d.toList.take 4)

/-- formatCitationLabel of the source: the author part and the year
part are combined according to the mode, narrative putting the year in
parentheses after a space and parenthetical joining with a comma, the
year being omitted when empty. -/
def formatCitationLabel (item : ZoteroItem) (mode : String)
    (locale : Option String) : String :=
  let terms := getLocaleTerms locale
  let author := buildAuthorPart item terms
  let year := buildYearPart item
  if mode = "narrative" then
    if year ≠ "" then author ++ " (" ++ year ++ ")" else author
  else
    if year ≠ "" then author ++ ", " ++ year else author

/-! ## The label rewriter -/

/-- Insertion-order deduplication, the semantics of building a host Set
from an array and spreading it back. -/
def dedupFirst : List String → List String
  | [] => []
  | x :: xs => x :: (dedupFirst xs).filter (fun y => y ≠ x)

/-- All distinct et-al terms across every known locale, default first,
in insertion order. -/
def ALL_ET_AL_TERMS : List String :=
  dedupFirst (DEFAULT_TERMS.etAl :: LOCALE_TERMS.map (fun t => t.2.etAl))

/-- All distinct and-conjunction terms across every known locale,
default first, in insertion order. -/
def ALL_AND_TERMS : List String :=
  dedupFirst (DEFAULT_TERMS.and :: LOCALE_TERMS.map (fun t => t.2.and))

/-- rewriteCitationText of the source: every known et-al term other
than the target term is replaced (as a bare substring) by the target
term, then every known and-term other than the target term is replaced
when surrounded by single spaces. -/
def rewriteCitationText (text : String) (newLocale : Option String) : String :=
  let newTerms := getLocaleTerms newLocale
  let r1 := ALL_ET_AL_TERMS.foldl
    (fun result old =>
      if old ≠ newTerms.etAl then jsReplaceAll old newTerms.etAl result else result)
    text
  ALL_AND_TERMS.foldl
    (fun result old =>
      if old ≠ newTerms.and then
        jsReplaceAll (" " ++ old ++ " ") (" " ++ newTerms.and ++ " ") result
      else result)
    r1

/-! ## The mode converter

The two regexes of convertTextBetweenModes are translated as explicit
matchers over the character list, each returning the captured author
group and the captured four-digit group. -/

/-- Matcher for the parenthetical label regex, a caret, a greedy
captured dot-plus, a comma, a star of whitespace, four captured digits,
a dollar.  The end anchor pins the four digits to the end; the greedy
group then selects the last comma separated from them by whitespace
only, and the author group, being built from dots, must contain no line
terminator and be non-empty. -/
def matchParenList (l : List Char) : Option (List Char × List Char) :=
  match l.reverse with
  | r1 :: r2 :: r3 :: r4 :: rest =>
    if r1.isDigit ∧ r2.isDigit ∧ r3.isDigit ∧ r4.isDigit then
      match rest.dropWhile jsWhitespace with
      | c :: arev =>
        if c = ',' ∧ arev ≠ [] ∧ arev.all (fun x => ¬ isLineTerm x) then
          some (arev.reverse, [r4, r3, r2, r1])
        else none
      | [] => none
    else none
  | _ => none

/-- Matcher for the narrative label regex, a caret, a lazy captured
dot-plus, a plus of whitespace, an opening parenthesis, four captured
digits, a closing parenthesis, a dollar.  The end anchor pins the
parenthesized digits to the end; the lazy group then ends right before
the maximal whitespace run preceding the opening parenthesis, except
that when everything before the parenthesis is whitespace the group
takes exactly the first character (which the dot must still match). -/
def matchNarrList (l : List Char) : Option (List Char × List Char) :=
  match l.reverse with
  | cp :: r1 :: r2 :: r3 :: r4 :: co :: rest =>
    if cp = ')' ∧ co = '(' ∧ r1.isDigit ∧ r2.isDigit ∧ r3.isDigit ∧ r4.isDigit then
      match rest.dropWhile jsWhitespace with
      | la :: arev =>
        if rest.takeWhile jsWhitespace ≠ [] ∧
            (la :: arev).all (fun x => ¬ isLineTerm x) then
          some ((la :: arev).reverse, [r4, r3, r2, r1])
        else none
      | [] =>
        match rest.reverse with
        | w1 :: _ :: _ => if ¬ isLineTerm w1 then some ([w1], [r4, r3, r2, r1]) else none
        | _ => none
    else none
  | _ => none

/-- convertTextBetweenModes of the source: identical modes return the
text unchanged; parenthetical to narrative rewrites a matched
author-comma-year label into author-space-parenthesized-year; every
other mode pair applies the narrative matcher and rewrites a matched
label the other way; an unmatched text is returned unchanged. -/
def convertTextBetweenModes (text fromMode toMode : String) : String :=
  if fromMode = toMode then text
  else if fromMode = "parenthetical" ∧ toMode = "narrative" then
    match matchParenList text.toList with
    | some (a, d) => String.mk (a ++ [' ', '('] ++ d ++ [')'])
    | none => text
  else
    match matchNarrList text.toList with
    | some (a, d) => String.mk (a ++ [',', ' '] ++ d)
    | none => text

/-! ## The document tree model

A ProseMirror document is a tree of nodes; a node is either a text node
or an element with a type name, an attribute record, a schema-derived
leaf flag and a list of children.  The child list is represented by a
mutually defined forest type so that every traversal below is plain
structural recursion.  Sizes and positions follow ProseMirror: a text
node spans its character count, a leaf node spans one position, and any
other element spans its content plus one opening and one closing
position. -/

mutual
inductive PMNode where
  | text (s : String)
  | node (typeName : String) (attrs : List (String × String)) (isLeaf : Bool)
      (children : PMForest)
deriving DecidableEq, Repr

inductive PMForest where
  | nil
  | cons (head : PMNode) (tail : PMForest)
deriving DecidableEq, Repr
end

/-- Type name of a node; a text node has the type name text. -/
def typeNameOf : PMNode → String
  | .text _ => "text"
  | .node t _ _ _ => t

/-- Attribute record of a node; a text node has none. -/
def attrsOf : PMNode → List (String × String)
  | .text _ => []
  | .node _ a _ _ => a

/-- One attribute of a node, the defaulted property access of the
source (the schema guarantees presence for the attributes accessed). -/
def attrOf (n : PMNode) (name : String) : String :=
  ((attrsOf n).lookup name).getD ""

mutual
/-- ProseMirror nodeSize. -/
def nodeSizeN : PMNode → Nat
  | .text s => s.length
  | .node _ _ true _ => 1
  | .node _ _ false cs => 2 + contentSizeF cs

/-- ProseMirror content size of a child forest. -/
def contentSizeF : PMForest → Nat
  | .nil => 0
  | .cons c rest => nodeSizeN c + contentSizeF rest
end

/-- Whether a node carries the bibliography structural marker. -/
def isBibNode (n : PMNode) : Bool :=
  typeNameOf n = "zoteroBibliography"

mutual
/-- The descendant list of a forest whose first node starts at the
given position: every node paired with the position just before it, in
the order the ProseMirror descendants callback visits them (parent
first, then its children starting one position further in, then the
following siblings). -/
def descWP : PMForest → Nat → List (PMNode × Nat)
  | .nil, _ => []
  | .cons c rest, pos =>
    (c, pos) :: (descWPNode c pos ++ descWP rest (pos + nodeSizeN c))

/-- The descendants of one node, its children starting one position in;
a text node has none. -/
def descWPNode : PMNode → Nat → List (PMNode × Nat)
  | .text _, _ => []
  | .node _ _ _ cs, pos => descWP cs (pos + 1)
end

mutual
/-- The descendants traversal of findBibliographyRange: one step per
visited node, threading the single result cell of the closure. -/
def findBibAux : Option (Nat × Nat) → PMForest → Nat → Option (Nat × Nat)
  | res, .nil, _ => res
  | res, .cons c rest, pos =>
    findBibAux (findBibStep res c pos) rest (pos + nodeSizeN c)

/-- One callback invocation of findBibliographyRange together with the
conditional descent of nodesBetween: with the result already set the
callback returns false and nothing happens; on a bibliography node the
span is recorded and the children are skipped (the callback returns
false); otherwise the callback returns true and the traversal descends
into the children. -/
def findBibStep : Option (Nat × Nat) → PMNode → Nat → Option (Nat × Nat)
  | some r, _, _ => some r
  | none, .text _, _ => none
  | none, .node t a lf cs, pos =>
    if t = "zoteroBibliography" then some (pos, pos + nodeSizeN (.node t a lf cs))
    else findBibAux none cs (pos + 1)
end

/-- findBibliographyRange of the source over the document child
forest. -/
def findBibliographyRange (doc : PMForest) : Option (Nat × Nat) :=
  findBibAux none doc 0

mutual
/-- ProseMirror nodeAt over a child forest: the outermost node starting
exactly at the position, or the text node enclosing it, found by
descending through the element that spans the position. -/
def nodeAtF : PMForest → Nat → Option PMNode
  | .nil, _ => none
  | .cons c rest, pos =>
    if pos = 0 then some c
    else if pos < nodeSizeN c then nodeAtInto c (pos - 1)
    else nodeAtF rest (pos - nodeSizeN c)

/-- Resolution of a position strictly inside a node, given relative to
the start of its content: a text node is returned itself, an element
resolves within its children. -/
def nodeAtInto : PMNode → Nat → Option PMNode
  | .text s, _ => some (.text s)
  | .node _ _ _ cs, inner => nodeAtF cs inner
end

/-- Attribute replacement on one node, the node rebuild performed by
setNodeMarkup: type, leaf flag and children are kept, the attribute
record is replaced. -/
def withAttrs : PMNode → List (String × String) → PMNode
  | .text s, _ => .text s
  | .node t _ lf cs, a => .node t a lf cs

mutual
/-- setNodeMarkup addressing: rebuilds the document with the attribute
record of the node at the given position replaced, following the same
descent as nodeAt.  A position interior to a text node leaves the
forest unchanged (the caller only targets citation nodes). -/
def setAttrsF : PMForest → Nat → List (String × String) → PMForest
  | .nil, _, _ => .nil
  | .cons c rest, pos, a =>
    if pos = 0 then .cons (withAttrs c a) rest
    else if pos < nodeSizeN c then .cons (setAttrsInto c (pos - 1) a) rest
    else .cons c (setAttrsF rest (pos - nodeSizeN c) a)

/-- Attribute replacement at a position strictly inside a node, given
relative to the start of its content. -/
def setAttrsInto : PMNode → Nat → List (String × String) → PMNode
  | .text s, _, _ => .text s
  | .node t oldA lf cs, inner, a => .node t oldA lf (setAttrsF cs inner a)
end

/-- toggleCitationMode of the source: a missing node or one that is not
a citation leaves the document unchanged; otherwise one transaction
replaces the attribute record of the node with its spread copy whose
mode is the new mode and whose text is the converter output, keyed off
the stored mode. -/
def toggleCitationMode (doc : PMForest) (pos : Nat) (newMode : String) : PMForest :=
  match nodeAtF doc pos with
  | none => doc
  | some n =>
    if typeNameOf n = "citation" then
      let currentMode := attrOf n "mode"
      let newText := convertTextBetweenModes (attrOf n "text") currentMode newMode
      setAttrsF doc pos (attrsSet (attrsSet (attrsOf n) "mode" newMode) "text" newText)
    else doc

/-- One callback invocation of collectCitationKeys: a citation node
with a truthy key not yet seen appends it; the seen set of the source
always holds exactly the keys already pushed, so the key accumulator
serves as both. -/
def collectKeysVisit (c : PMNode) (acc : List String) : List String :=
  if typeNameOf c = "citation" then
    if attrOf c "key" ≠ "" ∧ attrOf c "key" ∉ acc then acc ++ [attrOf c "key"] else acc
  else acc

mutual
/-- The key-collection traversal of collectCitationKeys: the callback
runs on every node in depth-first order and always returns true, so the
traversal descends everywhere. -/
def collectKeysAux : PMForest → List String → List String
  | .nil, acc => acc
  | .cons c rest, acc => collectKeysAux rest (collectKeysNode c (collectKeysVisit c acc))

/-- The descent of the key collection into the children of one node. -/
def collectKeysNode : PMNode → List String → List String
  | .text _, acc => acc
  | .node _ _ _ cs, acc => collectKeysAux cs acc
end

/-- collectCitationKeys of the source over the document child forest. -/
def collectCitationKeys (doc : PMForest) : List String :=
  collectKeysAux doc []

/-! ## The bibliography replace-or-insert position logic -/

/-- The slice of the editor state that the bibliography insertion
consults: the document and the end of the selection. -/
structure EditorStateM where
  doc : PMForest
  selectionTo : Nat
deriving Repr

/-- The mutation insertBibliographyHtml dispatches. -/
inductive BibMutation where
  | replaceRange (rFrom rTo : Nat)
  | insertAt (pos : Nat)
deriving DecidableEq, Repr

/-- The position logic of insertBibliographyHtml: the replacement range
is located in the fresh state re-read from the view after the
asynchronous fetch, but the insertion position on the no-existing-block
path is the selection end of the state captured before the fetch. -/
def insertBibliographyTarget (state freshState : EditorStateM) : BibMutation :=
  match findBibliographyRange freshState.doc with
  | some (f, t) => .replaceRange f t
  | none => .insertAt state.selectionTo

/-! ## Auxiliary definitions used by the theorem statements -/

/-- Whether a label already matches the target locale: it contains no
known et-al term other than the target one, and no known and-term other
than the target one as a token surrounded by single spaces.  This is the
formalization of a text whose terms already match the term pair of the
target locale. -/
def cleanB (t : String) (L : Option String) : Bool :=
  let terms := getLocaleTerms L
  ALL_ET_AL_TERMS.all (fun old => old = terms.etAl || !(hasOcc old.toList t.toList)) &&
  ALL_AND_TERMS.all (fun old =>
    old = terms.and || !(hasOcc (" " ++ old ++ " ").toList t.toList))

/-- The locally observable part of one node: its type name, its
attribute record, and its text content when it is a text node.  The
frame theorem for the mode toggle states that every position other than
the toggled one keeps its shell. -/
def nodeShell (n : PMNode) : String × List (String × String) × String :=
  (typeNameOf n, attrsOf n, match n with | .text s => s | _ => "")

mutual
/-- The depth-first node list of a forest, parents before children
before following siblings. -/
def descNodesF : PMForest → List PMNode
  | .nil => []
  | .cons c rest => c :: (descNodesNode c ++ descNodesF rest)

/-- The depth-first descendant list of one node. -/
def descNodesNode : PMNode → List PMNode
  | .text _ => []
  | .node _ _ _ cs => descNodesF cs
end

/-- The citation keys of a forest in depth-first order, one entry per
citation node, duplicates and empty keys included. -/
def keysOf (fs : PMForest) : List String :=
  (descNodesF fs).filterMap
    (fun n => if typeNameOf n = "citation" then some (attrOf n "key") else none)

/-- The accumulator step of collectCitationKeys lifted to a key list:
each key is appended when non-empty and unseen. -/
def pushKeys (ks acc : List String) : List String :=
  ks.foldl (fun acc k => if k ≠ "" ∧ k ∉ acc then acc ++ [k] else acc) acc

/-- Insertion-order deduplication with an explicit accumulator of
already-kept elements. -/
def dedupFirstAux (l acc : List String) : List String :=
  l.foldl (fun acc k => if k ∈ acc then acc else acc ++ [k]) acc

/-- A concrete citation node, the end-to-end example of the mode-toggle
claim. -/
def exampleCite : PMNode :=
  .node "citation"
    [("key", "ABCD1234"), ("text", "Smith, 2020"), ("title", ""), ("mode", "parenthetical")]
    true .nil

/-- A concrete one-paragraph document holding the example citation at
position five. -/
def exampleDoc : PMForest :=
  .cons (.node "paragraph" [] false (.cons (.text "See ") (.cons exampleCite .nil))) .nil

/-- A concrete bibliography block of size nine. -/
def exampleBib : PMNode :=
  .node "zoteroBibliography" [("style", "apa"), ("locale", "en-US")] false
    (.cons (.node "paragraph" [] false (.cons (.text "entry") .nil)) .nil)

/-- A concrete document with two bibliography blocks, the first
starting at position four. -/
def exampleDocTwoBibs : PMForest :=
  .cons (.node "paragraph" [] false (.cons (.text "ab") .nil))
    (.cons exampleBib (.cons exampleBib .nil))

/-- A concrete three-author Zotero item. -/
def exampleItem : ZoteroItem :=
  { key := "K"
    data :=
      { title := some "T"
        date := some "2020"
        creators := some
          [ { lastName := some "Smith", creatorType := some "author" },
            { lastName := some "Jones", creatorType := some "author" },
            { lastName := some "Lee", creatorType := some "author" } ] } }

/-! ## Helper lemmas on the split model -/

theorem splitFuel_ne_nil (sep : List Char) (fuel : Nat) (s : List Char) :
    splitFuel sep fuel s ≠ [] := by
  induction fuel generalizing s with
  | zero => cases s <;> simp [splitFuel]
  | succ fuel ih =>
    cases s with
    | nil => simp [splitFuel]
    | cons c rest =>
      simp only [splitFuel]
      split
      · simp
      · split <;> simp

theorem splitFuel_of_not_hasOcc (sep : List Char) (fuel : Nat) (s : List Char)
    (h : hasOcc sep s = false) : splitFuel sep fuel s = [s] := by
  induction fuel generalizing s with
  | zero => cases s <;> simp [splitFuel]
  | succ fuel ih =>
    cases s with
    | nil => simp [splitFuel]
    | cons c rest =>
      simp only [hasOcc, Bool.or_eq_false_iff] at h
      simp only [splitFuel, h.1, ih rest h.2]
      simp

theorem jsReplaceAll_of_not_hasOcc (old new s : String)
    (h : hasOcc old.toList s.toList = false) : jsReplaceAll old new s = s := by
  unfold jsReplaceAll jsSplitChars
  rw [splitFuel_of_not_hasOcc _ _ _ h]
  have hi : List.intercalate new.toList [s.toList] = s.toList := by
    simp [List.intercalate]
  rw [hi]
  rfl

theorem foldl_id_of_all {α β : Type} (f : β → α → β) (b : β) (l : List α)
    (h : ∀ a ∈ l, f b a = b) : List.foldl f b l = b := by
  induction l with
  | nil => rfl
  | cons x xs ih =>
    rw [List.foldl_cons, h x (by simp)]
    exact ih (fun a ha => h a (by simp [ha]))

theorem splitFuel_head_takeWhile (h : Char) (fuel : Nat) (s : List Char)
    (hf : s.length ≤ fuel) :
    (splitFuel [h] fuel s).headD [] = s.takeWhile (fun c => c ≠ h) := by
  induction fuel generalizing s with
  | zero =>
    have hs : s = [] := by cases s <;> simp_all
    subst hs
    simp [splitFuel]
  | succ fuel ih =>
    cases s with
    | nil => simp [splitFuel]
    | cons c rest =>
      by_cases hc : c = h
      · subst hc
        simp [splitFuel, List.isPrefixOf, List.takeWhile]
      · have hpre : [h].isPrefixOf (c :: rest) = false := by
          simp [List.isPrefixOf]
          exact fun hh => absurd hh.symm hc
        simp only [splitFuel, hpre, and_false, ne_eq, false_and, if_false]
        cases hsp : splitFuel [h] fuel rest with
        | nil => exact absurd hsp (splitFuel_ne_nil _ _ _)
        | cons p ps =>
          have hr : (splitFuel [h] fuel rest).headD [] =
              rest.takeWhile (fun x => x ≠ h) := ih rest (by simpa using Nat.le_of_succ_le_succ (by simpa using hf))
          rw [hsp] at hr
          simp only [List.headD_cons] at hr
          simp [List.takeWhile, hc, hr]

/-! ## The label rewriter: fixed points and idempotence -/

theorem rewriteCitationText_of_clean (t : String) (L : Option String)
    (h : cleanB t L = true) : rewriteCitationText t L = t := by
  unfold cleanB at h
  simp only [Bool.and_eq_true, List.all_eq_true, Bool.or_eq_true, decide_eq_true_eq,
    Bool.not_eq_true'] at h
  obtain ⟨h1, h2⟩ := h
  unfold rewriteCitationText
  dsimp only
  have hET : List.foldl
      (fun result old =>
        if old ≠ (getLocaleTerms L).etAl then
          jsReplaceAll old (getLocaleTerms L).etAl result
        else result)
      t ALL_ET_AL_TERMS = t := by
    apply foldl_id_of_all
    intro old hold
    rcases h1 old hold with he | hocc
    · simp [he]
    · by_cases hne : old = (getLocaleTerms L).etAl
      · simp [hne]
      · simp only [ne_eq, hne, not_false_eq_true, if_true]
        exact jsReplaceAll_of_not_hasOcc _ _ _ hocc
  rw [hET]
  apply foldl_id_of_all
  intro old hold
  rcases h2 old hold with he | hocc
  · simp [he]
  · by_cases hne : old = (getLocaleTerms L).and
    · simp [hne]
    · simp only [ne_eq, hne, not_false_eq_true, if_true]
      exact jsReplaceAll_of_not_hasOcc _ _ _ hocc

/-- C4 (amended).  The locale rewriter is idempotent on every text
whose first rewrite removes all foreign terms, and a text already
matching the target locale (no foreign et-al term as a substring, no
foreign and-term as a space-surrounded token) is returned unchanged.
Unrestricted idempotence fails, see the counterexample below. -/
theorem C4_rewrite_idempotent_amended :
    ∀ (text : String) (L : Option String),
      (cleanB (rewriteCitationText text L) L = true →
        rewriteCitationText (rewriteCitationText text L) L = rewriteCitationText text L) ∧
      (cleanB text L = true → rewriteCitationText text L = text) := by
  intro text L
  exact ⟨fun h => rewriteCitationText_of_clean _ _ h,
    fun h => rewriteCitationText_of_clean _ _ h⟩

/-- C4 (counterexample).  The rewriter is not idempotent as claimed: on
the text with three overlapping and-tokens, rewriting to Hungarian once
gives a different result from rewriting twice, because the split-join
replacement of space-surrounded and-terms consumes non-overlapping
occurrences only and leaves a residual token that the second pass then
replaces. -/
theorem C4_rewrite_counterexample :
    rewriteCitationText (rewriteCitationText "x a a a x" (some "hu")) (some "hu") ≠
      rewriteCitationText "x a a a x" (some "hu") := by
  decide

/-- Witness for C4 at a concrete formatter-produced label. -/
theorem C4_rewrite_idempotent_amended_witness :
    cleanB (rewriteCitationText "Smith et al., 2020" (some "hu")) (some "hu") = true ∧
    rewriteCitationText (rewriteCitationText "Smith et al., 2020" (some "hu")) (some "hu") =
      rewriteCitationText "Smith et al., 2020" (some "hu") :=
  ⟨by decide,
    (C4_rewrite_idempotent_amended "Smith et al., 2020" (some "hu")).1 (by decide)⟩

/-! ## The locale table lookup -/

/-- C9.  getLocaleTerms is total by construction and never raises: an
absent locale and the empty locale yield the default English pair; any
other locale is processed by lower-casing the characters before the
first hyphen and looking that language subtag up in the fixed table,
and an unmatched subtag again yields the default pair. -/
theorem C9_get_locale_terms_total :
    getLocaleTerms none = DEFAULT_TERMS ∧
    getLocaleTerms (some "") = DEFAULT_TERMS ∧
    (∀ s : String,
      getLocaleTerms (some s) =
        (LOCALE_TERMS.lookup
          (asciiLowerStr (String.mk (s.toList.takeWhile (fun c => c ≠ '-'))))).getD
          DEFAULT_TERMS) ∧
    (∀ s : String,
      LOCALE_TERMS.lookup
          (asciiLowerStr (String.mk (s.toList.takeWhile (fun c => c ≠ '-')))) = none →
        getLocaleTerms (some s) = DEFAULT_TERMS) := by
  refine ⟨rfl, rfl, ?_, ?_⟩
  · intro s
    by_cases hs : s = ""
    · subst hs; rfl
    · unfold getLocaleTerms jsSplitChars
      simp only [hs, if_false]
      rw [show (splitFuel ['-'] s.toList.length s.toList).headD [] =
          s.toList.takeWhile (fun c => c ≠ '-') from
        splitFuel_head_takeWhile '-' s.toList.length s.toList (Nat.le_refl _)]
  · intro s h
    by_cases hs : s = ""
    · subst hs; rfl
    · unfold getLocaleTerms jsSplitChars
      simp only [hs, if_false]
      rw [show (splitFuel ['-'] s.toList.length s.toList).headD [] =
          s.toList.takeWhile (fun c => c ≠ '-') from
        splitFuel_head_takeWhile '-' s.toList.length s.toList (Nat.le_refl _), h]
      rfl

/-- Witness for C9: a locale with a region subtag and an unknown
language falls back to the default pair through the theorem. -/
theorem C9_get_locale_terms_total_witness :
    LOCALE_TERMS.lookup
        (asciiLowerStr (String.mk (("xx-YY" : String).toList.takeWhile (fun c => c ≠ '-')))) =
      none ∧
    getLocaleTerms (some "xx-YY") = DEFAULT_TERMS :=
  ⟨by decide, (C9_get_locale_terms_total.2.2.2 "xx-YY") (by decide)⟩

/-! ## The label formatter -/

theorem buildAuthorPart_eq (item : ZoteroItem) (terms : LocaleTerms) :
    buildAuthorPart item terms =
      match zAuthors item with
      | [] => "Unknown Author"
      | [a] => surnameOf a
      | [a, b] => surnameOf a ++ " " ++ terms.and ++ " " ++ surnameOf b
      | a :: _ :: _ :: _ => surnameOf a ++ " " ++ terms.etAl := rfl

/-- C3.  formatCitationLabel is a pure function of the item, mode and
locale.  The author part is the Unknown Author placeholder for zero
filtered authors, the single surname for one, the two surnames joined
by the locale and-term for two, and the first surname followed by the
locale et-al term for three or more; a non-empty year is attached as a
parenthesized suffix in narrative mode and as a comma suffix in
parenthetical mode, and an empty year leaves the author part alone; and
the three-author Hungarian parenthetical example with year 2020
evaluates to the expected label. -/
theorem C3_format_citation_label :
    (∀ (item : ZoteroItem) (terms : LocaleTerms),
      zAuthors item = [] → buildAuthorPart item terms = "Unknown Author") ∧
    (∀ (item : ZoteroItem) (terms : LocaleTerms) (a : Creator),
      zAuthors item = [a] → buildAuthorPart item terms = surnameOf a) ∧
    (∀ (item : ZoteroItem) (terms : LocaleTerms) (a b : Creator),
      zAuthors item = [a, b] →
        buildAuthorPart item terms =
          surnameOf a ++ " " ++ terms.and ++ " " ++ surnameOf b) ∧
    (∀ (item : ZoteroItem) (terms : LocaleTerms) (a b c : Creator) (rest : List Creator),
      zAuthors item = a :: b :: c :: rest →
        buildAuthorPart item terms = surnameOf a ++ " " ++ terms.etAl) ∧
    (∀ (item : ZoteroItem) (locale : Option String),
      (buildYearPart item ≠ "" →
        formatCitationLabel item "narrative" locale =
          buildAuthorPart item (getLocaleTerms locale) ++ " (" ++ buildYearPart item ++ ")" ∧
        formatCitationLabel item "parenthetical" locale =
          buildAuthorPart item (getLocaleTerms locale) ++ ", " ++ buildYearPart item) ∧
      (buildYearPart item = "" →
        formatCitationLabel item "narrative" locale =
          buildAuthorPart item (getLocaleTerms locale) ∧
        formatCitationLabel item "parenthetical" locale =
          buildAuthorPart item (getLocaleTerms locale))) ∧
    formatCitationLabel exampleItem "parenthetical" (some "hu") = "Smith és mtsai., 2020" := by
  refine ⟨?_, ?_, ?_, ?_, ?_, by decide⟩
  · intro item terms h; rw [buildAuthorPart_eq, h]
  · intro item terms a h; rw [buildAuthorPart_eq, h]
  · intro item terms a b h; rw [buildAuthorPart_eq, h]
  · intro item terms a b c rest h; rw [buildAuthorPart_eq, h]
  · intro item locale
    constructor
    · intro hy
      refine ⟨?_, ?_⟩ <;> simp [formatCitationLabel, hy]
    · intro hy
      refine ⟨?_, ?_⟩ <;> simp [formatCitationLabel, hy]

/-- Witness for C3: the author-part cases and the year combination
evaluated on the concrete three-author item and on its truncations. -/
theorem C3_format_citation_label_witness :
    zAuthors exampleItem =
      [ { lastName := some "Smith", creatorType := some "author" },
        { lastName := some "Jones", creatorType := some "author" },
        { lastName := some "Lee", creatorType := some "author" } ] ∧
    buildAuthorPart exampleItem (getLocaleTerms (some "hu")) = "Smith és mtsai." ∧
    buildYearPart exampleItem ≠ "" ∧
    formatCitationLabel exampleItem "parenthetical" (some "hu") =
      buildAuthorPart exampleItem (getLocaleTerms (some "hu")) ++ ", " ++
        buildYearPart exampleItem :=
  ⟨by decide, by
    have := (C3_format_citation_label.2.2.2.1) exampleItem (getLocaleTerms (some "hu"))
      { lastName := some "Smith", creatorType := some "author" }
      { lastName := some "Jones", creatorType := some "author" }
      { lastName := some "Lee", creatorType := some "author" } [] (by decide)
    rw [this]; decide,
   by decide, by
    exact (((C3_format_citation_label.2.2.2.2.1) exampleItem (some "hu")).1 (by decide)).2⟩

/-! ## The bibliography replace-or-insert position logic -/

/-- C8.  The insertion path of the bibliography mutation uses the
selection end of the editor state captured before the asynchronous
fetch, not of the fresh state re-read at mutation time: with a captured
selection end of three and a fresh selection end of seven over a
bibliography-free fresh document, the dispatched mutation inserts at
three.  The replacement path does consult the fresh state, proved here
for every pair of states. -/
theorem C8_insert_uses_captured_selection :
    insertBibliographyTarget ⟨exampleDoc, 3⟩ ⟨exampleDoc, 7⟩ = .insertAt 3 ∧
    (3 : Nat) ≠ 7 ∧
    (∀ (state freshState : EditorStateM) (f t : Nat),
      findBibliographyRange freshState.doc = some (f, t) →
        insertBibliographyTarget state freshState = .replaceRange f t) := by
  refine ⟨by decide, by decide, ?_⟩
  intro state freshState f t h
  unfold insertBibliographyTarget
  rw [h]

/-! ## The citation tokenizer: equations and characterization -/

theorem parseCitFuel_irrel (f1 : Nat) : ∀ (l : List MDToken) (f2 : Nat),
    l.length ≤ f1 → l.length ≤ f2 → parseCitFuel f1 l = parseCitFuel f2 l := by
  induction f1 with
  | zero =>
    intro l f2 h1 h2
    have hl : l = [] := by cases l <;> simp_all
    subst hl
    cases f2 <;> rfl
  | succ f1 ih =>
    intro l f2 h1 h2
    cases l with
    | nil => cases f2 <;> rfl
    | cons tok rest =>
      cases f2 with
      | zero => simp at h2
      | succ f2 =>
        simp only [List.length_cons, Nat.succ_le_succ_iff] at h1 h2
        simp only [parseCitFuel]
        by_cases hopen : tok.type = "link_open"
        · simp only [hopen, if_true]
          cases hz : zoteroMatch ((attrGetM tok "href").getD "") with
          | none => rw [ih rest f2 h1 h2]
          | some key =>
            cases rest with
            | nil => simp [parseCitFuel]
            | cons t2 rest1 =>
              cases rest1 with
              | nil =>
                dsimp only
                rw [ih [t2] f2 (by simp at h1 ⊢; omega) (by simp at h2 ⊢; omega)]
              | cons t3 rest2 =>
                dsimp only
                simp only [List.length_cons] at h1 h2
                by_cases htr : t2.type = "text" ∧ t3.type = "link_close"
                · rw [if_pos htr, if_pos htr, ih rest2 f2 (by omega) (by omega)]
                · rw [if_neg htr, if_neg htr,
                    ih (t2 :: t3 :: rest2) f2 (by simp; omega) (by simp; omega)]
        · simp only [hopen, if_false]
          rw [ih rest f2 h1 h2]

theorem parseCC_triple (openTok textTok closeTok : MDToken) (rest : List MDToken)
    (key : String)
    (ho : openTok.type = "link_open")
    (hz : zoteroMatch ((attrGetM openTok "href").getD "") = some key)
    (ht : textTok.type = "text") (hc : closeTok.type = "link_close") :
    parseCitationsChildren (openTok :: textTok :: closeTok :: rest) =
      mkCitationTok key textTok.content :: parseCitationsChildren rest := by
  unfold parseCitationsChildren
  simp only [List.length_cons, parseCitFuel, ho, hz, ht, hc, and_self, if_true]
  rw [parseCitFuel_irrel (rest.length + 1 + 1) rest rest.length (by omega) (by omega)]

theorem parseCC_pass_not_open (tok : MDToken) (rest : List MDToken)
    (h : tok.type ≠ "link_open") :
    parseCitationsChildren (tok :: rest) = tok :: parseCitationsChildren rest := by
  unfold parseCitationsChildren
  simp only [List.length_cons, parseCitFuel, h, if_false]

theorem parseCC_pass_no_match (tok : MDToken) (rest : List MDToken)
    (ho : tok.type = "link_open")
    (hz : zoteroMatch ((attrGetM tok "href").getD "") = none) :
    parseCitationsChildren (tok :: rest) = tok :: parseCitationsChildren rest := by
  unfold parseCitationsChildren
  simp only [List.length_cons, parseCitFuel, ho, hz, if_true]

theorem parseCC_pass_bad_triple (tok t2 t3 : MDToken) (rest2 : List MDToken)
    (key : String)
    (ho : tok.type = "link_open")
    (hz : zoteroMatch ((attrGetM tok "href").getD "") = some key)
    (htr : ¬ (t2.type = "text" ∧ t3.type = "link_close")) :
    parseCitationsChildren (tok :: t2 :: t3 :: rest2) =
      tok :: parseCitationsChildren (t2 :: t3 :: rest2) := by
  unfold parseCitationsChildren
  simp only [List.length_cons, parseCitFuel, ho, hz, htr, if_true, if_false]

theorem parseCC_pass_short (tok : MDToken) (key : String)
    (ho : tok.type = "link_open")
    (hz : zoteroMatch ((attrGetM tok "href").getD "") = some key) :
    parseCitationsChildren [tok] = [tok] ∧
    (∀ t2 : MDToken, parseCitationsChildren [tok, t2] =
      tok :: parseCitationsChildren [t2]) := by
  constructor
  · unfold parseCitationsChildren
    simp only [List.length_cons, parseCitFuel, ho, hz, if_true]
  · intro t2
    unfold parseCitationsChildren
    simp only [List.length_cons, parseCitFuel, ho, hz, if_true]

theorem zoteroMatch_some_iff (href key : String) :
    zoteroMatch href = some key ↔
      ∃ c1 c2 c3 c4 c5 c6 : Char,
        href.toList = [c1, c2, c3, c4, c5, c6, ':', '/', '/'] ++ key.toList ∧
        (c1 = 'z' ∨ c1 = 'Z') ∧ (c2 = 'o' ∨ c2 = 'O') ∧ (c3 = 't' ∨ c3 = 'T') ∧
        (c4 = 'e' ∨ c4 = 'E') ∧ (c5 = 'r' ∨ c5 = 'R') ∧ (c6 = 'o' ∨ c6 = 'O') ∧
        key ≠ "" ∧ key.toList.all Char.isAlphanum = true := by
  constructor
  · intro h
    unfold zoteroMatch at h
    cases hm : matchZoteroChars href.toList with
    | none => rw [hm] at h; simp at h
    | some rest =>
      rw [hm] at h
      simp at h
      unfold matchZoteroChars at hm
      split at hm
      · rename_i c1 c2 c3 c4 c5 c6 rest0 heq
        split at hm
        · rename_i hcond
          simp only [Option.some.injEq] at hm
          subst hm
          subst h
          refine ⟨c1, c2, c3, c4, c5, c6, ?_, hcond.1, hcond.2.1, hcond.2.2.1,
            hcond.2.2.2.1, hcond.2.2.2.2.1, hcond.2.2.2.2.2.1, ?_, ?_⟩
          · exact heq
          · intro hk
            have hre := congrArg String.toList hk
            simp at hre
            exact hcond.2.2.2.2.2.2.1 hre
          · exact hcond.2.2.2.2.2.2.2
        · simp at hm
      · simp at hm
  · rintro ⟨c1, c2, c3, c4, c5, c6, hl, hc1, hc2, hc3, hc4, hc5, hc6, hk, ha⟩
    unfold zoteroMatch
    rw [hl]
    simp only [List.cons_append, List.nil_append]
    unfold matchZoteroChars
    have hkl : key.toList ≠ [] := by
      intro hkk
      apply hk
      have hmk : String.mk key.toList = String.mk [] := by rw [hkk]
      simpa using hmk
    simp only [hc1, hc2, hc3, hc4, hc5, hc6, ne_eq, true_and]
    rw [if_pos]
    · rfl
    · exact ⟨hkl, ha⟩

theorem mkCitationTok_attrs (key text : String) :
    (mkCitationTok key text).type = "citation" ∧
    attrGetM (mkCitationTok key text) "key" = some key ∧
    attrGetM (mkCitationTok key text) "text" = some text ∧
    attrGetM (mkCitationTok key text) "title" = some "" ∧
    attrGetM (mkCitationTok key text) "mode" =
      some (if narTest text.toList then "narrative" else "parenthetical") := by
  refine ⟨rfl, ?_, ?_, ?_, ?_⟩ <;>
    simp [mkCitationTok, attrsSet, attrGetM, List.find?]

/-- C1.  The tokenizer pass replaces a link-open, text, link-close
triple by one citation token exactly when the href matches the anchored
whole-string zotero pattern (scheme followed by one or more
alphanumerics, case-insensitively, with nothing before or after); the
produced token carries the captured key, the link text, an empty title,
and a mode that is narrative exactly when the text passes the
narrative-suffix test of the whitespace-year-parenthesis regex and
parenthetical otherwise; and every other token, including link-open
tokens whose href fails the anchored match and link-open tokens whose
following tokens do not form a text and link-close pair, is passed
through unchanged in its original position. -/
theorem C1_tokenizer_spec :
    (∀ (openTok textTok closeTok : MDToken) (rest : List MDToken) (key : String),
      openTok.type = "link_open" →
      zoteroMatch ((attrGetM openTok "href").getD "") = some key →
      textTok.type = "text" → closeTok.type = "link_close" →
      parseCitationsChildren (openTok :: textTok :: closeTok :: rest) =
        mkCitationTok key textTok.content :: parseCitationsChildren rest) ∧
    (∀ key text : String,
      (mkCitationTok key text).type = "citation" ∧
      attrGetM (mkCitationTok key text) "key" = some key ∧
      attrGetM (mkCitationTok key text) "text" = some text ∧
      attrGetM (mkCitationTok key text) "title" = some "" ∧
      (attrGetM (mkCitationTok key text) "mode" = some "narrative" ↔
        narTest text.toList = true) ∧
      (attrGetM (mkCitationTok key text) "mode" = some "parenthetical" ↔
        narTest text.toList = false)) ∧
    (∀ href key : String,
      zoteroMatch href = some key ↔
        ∃ c1 c2 c3 c4 c5 c6 : Char,
          href.toList = [c1, c2, c3, c4, c5, c6, ':', '/', '/'] ++ key.toList ∧
          (c1 = 'z' ∨ c1 = 'Z') ∧ (c2 = 'o' ∨ c2 = 'O') ∧ (c3 = 't' ∨ c3 = 'T') ∧
          (c4 = 'e' ∨ c4 = 'E') ∧ (c5 = 'r' ∨ c5 = 'R') ∧ (c6 = 'o' ∨ c6 = 'O') ∧
          key ≠ "" ∧ key.toList.all Char.isAlphanum = true) ∧
    parseCitationsChildren [] = [] ∧
    (∀ (tok : MDToken) (rest : List MDToken), tok.type ≠ "link_open" →
      parseCitationsChildren (tok :: rest) = tok :: parseCitationsChildren rest) ∧
    (∀ (tok : MDToken) (rest : List MDToken), tok.type = "link_open" →
      zoteroMatch ((attrGetM tok "href").getD "") = none →
      parseCitationsChildren (tok :: rest) = tok :: parseCitationsChildren rest) ∧
    (∀ (tok t2 t3 : MDToken) (rest2 : List MDToken) (key : String),
      tok.type = "link_open" →
      zoteroMatch ((attrGetM tok "href").getD "") = some key →
      ¬ (t2.type = "text" ∧ t3.type = "link_close") →
      parseCitationsChildren (tok :: t2 :: t3 :: rest2) =
        tok :: parseCitationsChildren (t2 :: t3 :: rest2)) ∧
    (∀ (tok : MDToken) (key : String), tok.type = "link_open" →
      zoteroMatch ((attrGetM tok "href").getD "") = some key →
      parseCitationsChildren [tok] = [tok] ∧
      ∀ t2 : MDToken,
        parseCitationsChildren [tok, t2] = tok :: parseCitationsChildren [t2]) := by
  refine ⟨parseCC_triple, ?_, zoteroMatch_some_iff, rfl, parseCC_pass_not_open,
    parseCC_pass_no_match, parseCC_pass_bad_triple, parseCC_pass_short⟩
  intro key text
  obtain ⟨h0, h1, h2, h3, h4⟩ := mkCitationTok_attrs key text
  refine ⟨h0, h1, h2, h3, ?_, ?_⟩ <;> rw [h4] <;>
    cases hn : narTest text.toList <;> simp

/-- Witness for C1: the triple rule applied to a concrete matching
link triple. -/
theorem C1_tokenizer_spec_witness :
    ({ type := "link_open", attrs := [("href", "zotero://ABC12")],
        content := "" } : MDToken).type = "link_open" ∧
    zoteroMatch ((attrGetM
      { type := "link_open", attrs := [("href", "zotero://ABC12")], content := "" }
      "href").getD "") = some "ABC12" ∧
    parseCitationsChildren
      [ { type := "link_open", attrs := [("href", "zotero://ABC12")], content := "" },
        { type := "text", attrs := [], content := "Smith et al. (2020)" },
        { type := "link_close", attrs := [], content := "" } ] =
      mkCitationTok "ABC12" "Smith et al. (2020)" :: parseCitationsChildren [] :=
  ⟨rfl, by decide,
    C1_tokenizer_spec.1
      { type := "link_open", attrs := [("href", "zotero://ABC12")], content := "" }
      { type := "text", attrs := [], content := "Smith et al. (2020)" }
      { type := "link_close", attrs := [], content := "" }
      [] "ABC12" rfl (by decide) rfl rfl⟩

/-! ## Serialize-then-reparse of a citation record -/

theorem reparse_wellformed (r : CitationRecord) (hkey : r.key ≠ "")
    (halnum : r.key.toList.all Char.isAlphanum = true) (htext : r.text ≠ "") :
    reparseCitation r = [mkCitationTok r.key r.text] := by
  unfold reparseCitation linkTripleFor
  have hlabel : citationLabel r = r.text := by simp [citationLabel, htext]
  have hz : zoteroMatch ("zotero://" ++ r.key) = some r.key := by
    rw [zoteroMatch_some_iff]
    refine ⟨'z', 'o', 't', 'e', 'r', 'o', ?_, Or.inl rfl, Or.inl rfl, Or.inl rfl,
      Or.inl rfl, Or.inl rfl, Or.inl rfl, hkey, halnum⟩
    rw [show ("zotero://" ++ r.key).toList = "zotero://".toList ++ r.key.toList from
      String.data_append _ _]
    rfl
  rw [hlabel]
  have := parseCC_triple
    { type := "link_open", attrs := [("href", "zotero://" ++ r.key)], content := "" }
    { type := "text", attrs := [], content := r.text }
    { type := "link_close", attrs := [], content := "" }
    [] r.key rfl (by simpa [attrGetM] using hz) rfl rfl
  simpa using this

/-- C2 (amended).  For a citation record whose key is non-empty and
alphanumeric (as the data model requires of keys) and whose text is
non-empty, serializing to the interchange link and re-parsing with the
citation tokenizer yields exactly one citation token that reproduces
the key and the text exactly, and reproduces the mode exactly when the
narrative-suffix heuristic classification of the text agrees with the
stored mode.  A record with empty text is serialized with the key as
its label, so its text is not reproduced, see the counterexample. -/
theorem C2_roundtrip_amended :
    ∀ r : CitationRecord, r.key ≠ "" → r.key.toList.all Char.isAlphanum = true →
      r.text ≠ "" →
      reparseCitation r = [mkCitationTok r.key r.text] ∧
      attrGetM (mkCitationTok r.key r.text) "key" = some r.key ∧
      attrGetM (mkCitationTok r.key r.text) "text" = some r.text ∧
      (attrGetM (mkCitationTok r.key r.text) "mode" = some r.mode ↔
        (if narTest r.text.toList then "narrative" else "parenthetical") = r.mode) := by
  intro r h1 h2 h3
  obtain ⟨_, hk, ht, _, hm⟩ := mkCitationTok_attrs r.key r.text
  refine ⟨reparse_wellformed r h1 h2 h3, hk, ht, ?_⟩
  rw [hm]
  simp

/-- C2 (counterexample).  The claim fails for a record with empty
text: serialization falls back to the key as the link label, so
re-parsing yields a citation token whose text attribute is the key,
not the original empty text. -/
theorem C2_roundtrip_counterexample :
    (reparseCitation ⟨"K1", "", "", "parenthetical"⟩).map
        (fun tok => attrGetM tok "text") = [some "K1"] ∧
    some ("K1" : String) ≠ some "" := by decide

/-- Witness for C2 at a concrete well-formed record. -/
theorem C2_roundtrip_amended_witness :
    ("ABCD1234" : String) ≠ "" ∧
    ("ABCD1234" : String).toList.all Char.isAlphanum = true ∧
    ("Smith, 2020" : String) ≠ "" ∧
    reparseCitation ⟨"ABCD1234", "Smith, 2020", "", "parenthetical"⟩ =
      [mkCitationTok "ABCD1234" "Smith, 2020"] :=
  ⟨by decide, by decide, by decide,
    (C2_roundtrip_amended ⟨"ABCD1234", "Smith, 2020", "", "parenthetical"⟩
      (by decide) (by decide) (by decide)).1⟩

/-! ## The mode converter: matcher equations and round trips -/

theorem matchParen_at (a : List Char) (d1 d2 d3 d4 : Char)
    (ha : a ≠ []) (hlt : a.all (fun c => ¬ isLineTerm c) = true)
    (h1 : d1.isDigit = true) (h2 : d2.isDigit = true)
    (h3 : d3.isDigit = true) (h4 : d4.isDigit = true) :
    matchParenList (a ++ [',', ' ', d1, d2, d3, d4]) = some (a, [d1, d2, d3, d4]) := by
  unfold matchParenList
  rw [show (a ++ [',', ' ', d1, d2, d3, d4]).reverse =
      d4 :: d3 :: d2 :: d1 :: (' ' :: ',' :: a.reverse) by simp]
  dsimp only
  rw [if_pos ⟨h4, h3, h2, h1⟩]
  rw [show List.dropWhile jsWhitespace (' ' :: ',' :: a.reverse) = ',' :: a.reverse by
    rw [List.dropWhile_cons_of_pos (by decide), List.dropWhile_cons_of_neg (by decide)]]
  dsimp only
  rw [if_pos ⟨rfl, by simpa using ha, by simpa using hlt⟩]
  simp

theorem matchNarr_at (a : List Char) (d1 d2 d3 d4 : Char)
    (ha : a ≠ []) (hlt : a.all (fun c => ¬ isLineTerm c) = true)
    (hws : ∀ c, a.getLast? = some c → jsWhitespace c = false)
    (h1 : d1.isDigit = true) (h2 : d2.isDigit = true)
    (h3 : d3.isDigit = true) (h4 : d4.isDigit = true) :
    matchNarrList (a ++ [' ', '(', d1, d2, d3, d4, ')']) = some (a, [d1, d2, d3, d4]) := by
  obtain ⟨la, ra, hrev⟩ : ∃ la ra, a.reverse = la :: ra := by
    cases hr : a.reverse with
    | nil => exact absurd (by simpa using hr) ha
    | cons la ra => exact ⟨la, ra, rfl⟩
  have hla : jsWhitespace la = false := by
    apply hws
    rw [← List.head?_reverse, hrev]
    rfl
  unfold matchNarrList
  rw [show (a ++ [' ', '(', d1, d2, d3, d4, ')']).reverse =
      ')' :: d4 :: d3 :: d2 :: d1 :: '(' :: (' ' :: a.reverse) by simp]
  dsimp only
  rw [if_pos ⟨rfl, rfl, h4, h3, h2, h1⟩]
  rw [hrev]
  rw [show List.dropWhile jsWhitespace (' ' :: la :: ra) = la :: ra by
    rw [List.dropWhile_cons_of_pos (by decide), List.dropWhile_cons_of_neg (by simp [hla])]]
  dsimp only
  rw [show List.takeWhile jsWhitespace (' ' :: la :: ra) = [' '] by
    rw [List.takeWhile_cons_of_pos (by decide), List.takeWhile_cons_of_neg (by simp [hla])]]
  have hall : (la :: ra).all (fun c => decide (¬ isLineTerm c = true)) = true := by
    rw [← hrev, List.all_reverse]
    simpa using hlt
  rw [if_pos ⟨by simp, by simpa using hall⟩]
  rw [← hrev]
  simp

theorem convert_pn (a : List Char) (d1 d2 d3 d4 : Char)
    (ha : a ≠ []) (hlt : a.all (fun c => ¬ isLineTerm c) = true)
    (h1 : d1.isDigit = true) (h2 : d2.isDigit = true)
    (h3 : d3.isDigit = true) (h4 : d4.isDigit = true) :
    convertTextBetweenModes (String.mk (a ++ [',', ' ', d1, d2, d3, d4]))
        "parenthetical" "narrative" =
      String.mk (a ++ [' ', '(', d1, d2, d3, d4, ')']) := by
  unfold convertTextBetweenModes
  rw [if_neg (by decide), if_pos (by decide)]
  rw [show (String.mk (a ++ [',', ' ', d1, d2, d3, d4])).toList =
      a ++ [',', ' ', d1, d2, d3, d4] from rfl]
  rw [matchParen_at a d1 d2 d3 d4 ha hlt h1 h2 h3 h4]
  dsimp only
  congr 1
  simp

theorem convert_np (a : List Char) (d1 d2 d3 d4 : Char)
    (ha : a ≠ []) (hlt : a.all (fun c => ¬ isLineTerm c) = true)
    (hws : ∀ c, a.getLast? = some c → jsWhitespace c = false)
    (h1 : d1.isDigit = true) (h2 : d2.isDigit = true)
    (h3 : d3.isDigit = true) (h4 : d4.isDigit = true) :
    convertTextBetweenModes (String.mk (a ++ [' ', '(', d1, d2, d3, d4, ')']))
        "narrative" "parenthetical" =
      String.mk (a ++ [',', ' ', d1, d2, d3, d4]) := by
  unfold convertTextBetweenModes
  rw [if_neg (by decide), if_neg (by decide)]
  rw [show (String.mk (a ++ [' ', '(', d1, d2, d3, d4, ')'])).toList =
      a ++ [' ', '(', d1, d2, d3, d4, ')'] from rfl]
  rw [matchNarr_at a d1 d2 d3 d4 ha hlt hws h1 h2 h3 h4]
  dsimp only
  congr 1
  simp

/-- C5 (amended).  The mode converter is the identity when source and
target modes coincide; when neither regex pattern matches, conversion
in both directions returns the input unchanged (and, being a total
function, never raises); and the double conversion restores the input
exactly for every label of the precise shapes the converter itself
produces, author-comma-space-year with the author group non-empty, free
of line terminators and not ending in whitespace, and
author-space-parenthesized-year under the same author conditions.  For
a matched label whose separator whitespace is not exactly one space, or
whose author group ends in whitespace, the round trip can normalize the
whitespace instead of restoring it, see the counterexample. -/
theorem C5_mode_converter :
    (∀ text m : String, convertTextBetweenModes text m m = text) ∧
    (∀ text : String, matchParenList text.toList = none →
      convertTextBetweenModes text "parenthetical" "narrative" = text) ∧
    (∀ text : String, matchNarrList text.toList = none →
      convertTextBetweenModes text "narrative" "parenthetical" = text) ∧
    (∀ (a : List Char) (d1 d2 d3 d4 : Char),
      a ≠ [] → a.all (fun c => ¬ isLineTerm c) = true →
      (∀ c, a.getLast? = some c → jsWhitespace c = false) →
      d1.isDigit = true → d2.isDigit = true → d3.isDigit = true → d4.isDigit = true →
      convertTextBetweenModes
        (convertTextBetweenModes (String.mk (a ++ [',', ' ', d1, d2, d3, d4]))
          "parenthetical" "narrative")
        "narrative" "parenthetical" = String.mk (a ++ [',', ' ', d1, d2, d3, d4])) ∧
    (∀ (a : List Char) (d1 d2 d3 d4 : Char),
      a ≠ [] → a.all (fun c => ¬ isLineTerm c) = true →
      (∀ c, a.getLast? = some c → jsWhitespace c = false) →
      d1.isDigit = true → d2.isDigit = true → d3.isDigit = true → d4.isDigit = true →
      convertTextBetweenModes
        (convertTextBetweenModes (String.mk (a ++ [' ', '(', d1, d2, d3, d4, ')']))
          "narrative" "parenthetical")
        "parenthetical" "narrative" = String.mk (a ++ [' ', '(', d1, d2, d3, d4, ')'])) := by
  refine ⟨?_, ?_, ?_, ?_, ?_⟩
  · intro text m
    simp [convertTextBetweenModes]
  · intro text hm
    unfold convertTextBetweenModes
    rw [if_neg (by decide), if_pos (by decide), hm]
  · intro text hm
    unfold convertTextBetweenModes
    rw [if_neg (by decide), if_neg (by decide), hm]
  · intro a d1 d2 d3 d4 ha hlt hws h1 h2 h3 h4
    rw [convert_pn a d1 d2 d3 d4 ha hlt h1 h2 h3 h4,
      convert_np a d1 d2 d3 d4 ha hlt hws h1 h2 h3 h4]
  · intro a d1 d2 d3 d4 ha hlt hws h1 h2 h3 h4
    rw [convert_np a d1 d2 d3 d4 ha hlt hws h1 h2 h3 h4,
      convert_pn a d1 d2 d3 d4 ha hlt h1 h2 h3 h4]

/-- C5 (counterexample).  The round trip is not exact for every
matched input: the parenthetical label with a space before the comma
matches the first pattern, converting takes the author group with its
trailing space, and converting back collapses the whitespace, so the
original text is not restored. -/
theorem C5_roundtrip_counterexample :
    matchParenList ("Smith , 2020" : String).toList ≠ none ∧
    convertTextBetweenModes
        (convertTextBetweenModes "Smith , 2020" "parenthetical" "narrative")
        "narrative" "parenthetical" ≠ "Smith , 2020" := by
  decide

/-- Witness for C5: the exact round trip at a concrete well-shaped
label. -/
theorem C5_mode_converter_witness :
    ("Smith".toList ≠ []) ∧
    ("Smith".toList.all (fun c => ¬ isLineTerm c) = true) ∧
    (∀ c, "Smith".toList.getLast? = some c → jsWhitespace c = false) ∧
    convertTextBetweenModes
        (convertTextBetweenModes (String.mk ("Smith".toList ++ [',', ' ', '2', '0', '2', '0']))
          "parenthetical" "narrative")
        "narrative" "parenthetical" =
      String.mk ("Smith".toList ++ [',', ' ', '2', '0', '2', '0']) :=
  ⟨by decide, by decide, by decide,
    C5_mode_converter.2.2.2.1 "Smith".toList '2' '0' '2' '0'
      (by decide) (by decide) (by decide) (by decide) (by decide) (by decide) (by decide)⟩

/-! ## The bibliography locator -/

theorem find?_eq_head?_filterP {α : Type} (p : α → Bool) (l : List α) :
    l.find? p = (l.filter p).head? := by
  induction l with
  | nil => rfl
  | cons x xs ih =>
    by_cases hx : p x
    · rw [List.find?_cons_of_pos _ hx, List.filter_cons_of_pos hx]
      rfl
    · rw [List.find?_cons_of_neg _ (by simpa using hx),
        List.filter_cons_of_neg (by simpa using hx)]
      exact ih

theorem findBibStep_some (r : Nat × Nat) (c : PMNode) (pos : Nat) :
    findBibStep (some r) c pos = some r := by
  cases c <;> rfl

theorem findBibAux_some : ∀ (fs : PMForest) (pos : Nat) (r : Nat × Nat),
    findBibAux (some r) fs pos = some r
  | .nil, _, _ => rfl
  | .cons c rest, pos, r => by
    rw [findBibAux, findBibStep_some]
    exact findBibAux_some rest _ r

theorem findBibAux_none_eq : ∀ (fs : PMForest) (pos : Nat),
    findBibAux none fs pos =
      (match (descWP fs pos).find? (fun p => isBibNode p.1) with
      | some (n, p) => some (p, p + nodeSizeN n)
      | none => none)
  | .nil, _ => rfl
  | .cons c rest, pos => by
    rw [findBibAux, descWP]
    by_cases hb : isBibNode c = true
    · rw [List.find?_cons_of_pos _ (by simpa using hb)]
      cases c with
      | text s => simp [isBibNode, typeNameOf] at hb
      | node t a lf cs =>
        have ht : t = "zoteroBibliography" := by
          simpa [isBibNode, typeNameOf] using hb
        rw [findBibStep, if_pos ht, findBibAux_some]
    · rw [List.find?_cons_of_neg _ (by simpa using hb)]
      cases c with
      | text s =>
        rw [findBibStep, descWPNode, List.nil_append]
        exact findBibAux_none_eq rest (pos + nodeSizeN (.text s))
      | node t a lf cs =>
        have ht : ¬ t = "zoteroBibliography" := by
          simpa [isBibNode, typeNameOf] using hb
        rw [findBibStep, if_neg ht, descWPNode, List.find?_append]
        rw [findBibAux_none_eq cs (pos + 1)]
        cases hcs : (descWP cs (pos + 1)).find? (fun p => isBibNode p.1) with
        | some np =>
          obtain ⟨n, p⟩ := np
          exact findBibAux_some rest _ _
        | none =>
          exact findBibAux_none_eq rest (pos + nodeSizeN (.node t a lf cs))

/-- C6.  The bibliography locator is a pure (hence read-only) function
of the document: on a tree whose depth-first descendant list contains
no node with the bibliography marker it returns none; when the
descendant list contains exactly one marked node it returns the span
from the position of that node to that position plus its node size; in
general it returns the span of the first marked node in depth-first
order, so at most one match is ever consulted even when several
exist. -/
theorem C6_bibliography_locator :
    (∀ doc : PMForest,
      (descWP doc 0).all (fun p => ¬ isBibNode p.1) = true →
      findBibliographyRange doc = none) ∧
    (∀ (doc : PMForest) (n : PMNode) (pos : Nat),
      (descWP doc 0).filter (fun p => isBibNode p.1) = [(n, pos)] →
      findBibliographyRange doc = some (pos, pos + nodeSizeN n)) ∧
    (∀ (doc : PMForest) (n : PMNode) (pos : Nat),
      (descWP doc 0).find? (fun p => isBibNode p.1) = some (n, pos) →
      findBibliographyRange doc = some (pos, pos + nodeSizeN n)) := by
  have hfind : ∀ (doc : PMForest) (n : PMNode) (pos : Nat),
      (descWP doc 0).find? (fun p => isBibNode p.1) = some (n, pos) →
      findBibliographyRange doc = some (pos, pos + nodeSizeN n) := by
    intro doc n pos h
    rw [findBibliographyRange, findBibAux_none_eq, h]
  refine ⟨?_, ?_, hfind⟩
  · intro doc h
    rw [findBibliographyRange, findBibAux_none_eq]
    have hn : (descWP doc 0).find? (fun p => isBibNode p.1) = none := by
      rw [List.find?_eq_none]
      intro x hx
      simpa using (List.all_eq_true.mp h) x hx
    rw [hn]
  · intro doc n pos h
    apply hfind
    rw [find?_eq_head?_filterP, h]
    rfl

/-- Witness for C6: a document without a bibliography block locates to
none, and a document with two bibliography blocks locates to the span
of the first one. -/
theorem C6_bibliography_locator_witness :
    ((descWP exampleDoc 0).all (fun p => ¬ isBibNode p.1) = true) ∧
    findBibliographyRange exampleDoc = none ∧
    ((descWP exampleDocTwoBibs 0).find? (fun p => isBibNode p.1) =
      some (exampleBib, 4)) ∧
    findBibliographyRange exampleDocTwoBibs = some (4, 4 + nodeSizeN exampleBib) :=
  ⟨by decide, C6_bibliography_locator.1 exampleDoc (by decide), by decide,
    C6_bibliography_locator.2.2 exampleDocTwoBibs exampleBib 4 (by decide)⟩

/-! ## The mode toggle: frame and update lemmas -/

theorem nodeSizeN_withAttrs (n : PMNode) (a : List (String × String)) :
    nodeSizeN (withAttrs n a) = nodeSizeN n := by
  cases n with
  | text s => rfl
  | node t oldA lf cs => cases lf <;> rfl

mutual
theorem contentSizeF_setAttrsF : ∀ (fs : PMForest) (pos : Nat) (a : List (String × String)),
    contentSizeF (setAttrsF fs pos a) = contentSizeF fs
  | .nil, _, _ => rfl
  | .cons c rest, pos, a => by
    rw [setAttrsF]
    by_cases h0 : pos = 0
    · rw [if_pos h0, contentSizeF, contentSizeF, nodeSizeN_withAttrs]
    · rw [if_neg h0]
      by_cases hlt : pos < nodeSizeN c
      · rw [if_pos hlt, contentSizeF, contentSizeF, nodeSizeN_setAttrsInto c (pos - 1) a]
      · rw [if_neg hlt, contentSizeF, contentSizeF,
          contentSizeF_setAttrsF rest (pos - nodeSizeN c) a]

theorem nodeSizeN_setAttrsInto : ∀ (c : PMNode) (inner : Nat) (a : List (String × String)),
    nodeSizeN (setAttrsInto c inner a) = nodeSizeN c
  | .text s, _, _ => rfl
  | .node t oldA lf cs, inner, a => by
    cases lf with
    | true => rfl
    | false =>
      rw [setAttrsInto, nodeSizeN, nodeSizeN, contentSizeF_setAttrsF cs inner a]
end

theorem lookup_cons_pos {β : Type} (k : String) (v : β) (l : List (String × β))
    (m : String) (h : m = k) : List.lookup m ((k, v) :: l) = some v := by
  simp [List.lookup, h]

theorem lookup_cons_ne {β : Type} (k : String) (v : β) (l : List (String × β))
    (m : String) (h : ¬ m = k) : List.lookup m ((k, v) :: l) = List.lookup m l := by
  have hb : (m == k) = false := by simpa using h
  simp [List.lookup, hb]

theorem lookup_map_setAttr_ne (ps : List (String × String)) (name v m : String)
    (hm : m ≠ name) :
    (ps.map (fun p => if p.1 = name then (name, v) else p)).lookup m = ps.lookup m := by
  induction ps with
  | nil => rfl
  | cons p ps ih =>
    obtain ⟨pk, pv⟩ := p
    rw [List.map_cons]
    by_cases hp : pk = name
    · rw [show (if (pk, pv).1 = name then (name, v) else (pk, pv)) = (name, v) by
        simp [hp]]
      rw [lookup_cons_ne name v _ m hm, lookup_cons_ne pk pv ps m (fun he => hm (he.trans hp))]
      exact ih
    · rw [show (if (pk, pv).1 = name then (name, v) else (pk, pv)) = (pk, pv) by
        simp [hp]]
      by_cases hq : m = pk
      · rw [lookup_cons_pos pk pv _ m hq, lookup_cons_pos pk pv ps m hq]
      · rw [lookup_cons_ne pk pv _ m hq, lookup_cons_ne pk pv ps m hq]
        exact ih

theorem lookup_map_setAttr_self (ps : List (String × String)) (name v : String)
    (h : ps.any (fun p => p.1 = name) = true) :
    (ps.map (fun p => if p.1 = name then (name, v) else p)).lookup name = some v := by
  induction ps with
  | nil => simp at h
  | cons p ps ih =>
    obtain ⟨pk, pv⟩ := p
    rw [List.map_cons]
    by_cases hp : pk = name
    · rw [show (if (pk, pv).1 = name then (name, v) else (pk, pv)) = (name, v) by
        simp [hp]]
      rw [lookup_cons_pos name v _ name rfl]
    · rw [show (if (pk, pv).1 = name then (name, v) else (pk, pv)) = (pk, pv) by
        simp [hp]]
      rw [lookup_cons_ne pk pv _ name (fun he => hp he.symm)]
      simp only [List.any_cons, Bool.or_eq_true, decide_eq_true_eq] at h
      exact ih (h.resolve_left hp)

theorem lookup_append_single_ne (ps : List (String × String)) (name v m : String)
    (hm : m ≠ name) : (ps ++ [(name, v)]).lookup m = ps.lookup m := by
  induction ps with
  | nil =>
    rw [List.nil_append, lookup_cons_ne name v [] m hm]
  | cons p ps ih =>
    obtain ⟨pk, pv⟩ := p
    rw [List.cons_append]
    by_cases hq : m = pk
    · rw [lookup_cons_pos pk pv _ m hq, lookup_cons_pos pk pv ps m hq]
    · rw [lookup_cons_ne pk pv _ m hq, lookup_cons_ne pk pv ps m hq]
      exact ih

theorem lookup_append_single_self (ps : List (String × String)) (name v : String)
    (h : ps.any (fun p => p.1 = name) = false) :
    (ps ++ [(name, v)]).lookup name = some v := by
  induction ps with
  | nil => exact lookup_cons_pos name v [] name rfl
  | cons p ps ih =>
    obtain ⟨pk, pv⟩ := p
    simp only [List.any_cons, Bool.or_eq_false_iff, decide_eq_false_iff_not] at h
    rw [List.cons_append, lookup_cons_ne pk pv _ name (fun he => h.1 he.symm)]
    exact ih (by simpa using h.2)

theorem attrsSet_lookup_self (attrs : List (String × String)) (name v : String) :
    (attrsSet attrs name v).lookup name = some v := by
  unfold attrsSet
  by_cases h : attrs.any (fun p => p.1 = name) = true
  · rw [if_pos h]
    exact lookup_map_setAttr_self attrs name v h
  · rw [if_neg h]
    exact lookup_append_single_self attrs name v (Bool.eq_false_iff.mpr h)

theorem attrsSet_lookup_other (attrs : List (String × String)) (name v m : String)
    (hm : m ≠ name) : (attrsSet attrs name v).lookup m = attrs.lookup m := by
  unfold attrsSet
  by_cases h : attrs.any (fun p => p.1 = name) = true
  · rw [if_pos h]
    exact lookup_map_setAttr_ne attrs name v m hm
  · rw [if_neg h]
    exact lookup_append_single_ne attrs name v m hm

theorem nodeAtInto_withAttrs (c : PMNode) (a : List (String × String)) (i : Nat) :
    nodeAtInto (withAttrs c a) i = nodeAtInto c i := by
  cases c <;> rfl

theorem nodeShell_setAttrsInto (c : PMNode) (i : Nat) (a : List (String × String)) :
    nodeShell (setAttrsInto c i a) = nodeShell c := by
  cases c <;> rfl

mutual
theorem nodeAtF_setAttrsF_ne : ∀ (fs : PMForest) (pos q : Nat)
    (a : List (String × String)), q ≠ pos →
    (nodeAtF (setAttrsF fs pos a) q).map nodeShell = (nodeAtF fs q).map nodeShell
  | .nil, _, _, _, _ => rfl
  | .cons c rest, pos, q, a, hne => by
    rw [setAttrsF]
    by_cases h0 : pos = 0
    · rw [if_pos h0]
      have hq0 : ¬ q = 0 := by omega
      rw [nodeAtF, nodeAtF, if_neg hq0, if_neg hq0, nodeSizeN_withAttrs]
      by_cases hlt : q < nodeSizeN c
      · rw [if_pos hlt, if_pos hlt, nodeAtInto_withAttrs]
      · rw [if_neg hlt, if_neg hlt]
    · rw [if_neg h0]
      by_cases hlt : pos < nodeSizeN c
      · rw [if_pos hlt, nodeAtF, nodeAtF]
        by_cases hq0 : q = 0
        · rw [if_pos hq0, if_pos hq0]
          simp [nodeShell_setAttrsInto]
        · rw [if_neg hq0, if_neg hq0, nodeSizeN_setAttrsInto]
          by_cases hqlt : q < nodeSizeN c
          · rw [if_pos hqlt, if_pos hqlt]
            exact nodeAtInto_setAttrsInto_ne c (pos - 1) (q - 1) a (by omega)
          · rw [if_neg hqlt, if_neg hqlt]
      · rw [if_neg hlt, nodeAtF, nodeAtF]
        by_cases hq0 : q = 0
        · rw [if_pos hq0, if_pos hq0]
        · rw [if_neg hq0, if_neg hq0]
          by_cases hqlt : q < nodeSizeN c
          · rw [if_pos hqlt, if_pos hqlt]
          · rw [if_neg hqlt, if_neg hqlt]
            exact nodeAtF_setAttrsF_ne rest (pos - nodeSizeN c) (q - nodeSizeN c) a
              (by omega)

theorem nodeAtInto_setAttrsInto_ne : ∀ (c : PMNode) (i j : Nat)
    (a : List (String × String)), j ≠ i →
    (nodeAtInto (setAttrsInto c i a) j).map nodeShell = (nodeAtInto c j).map nodeShell
  | .text _, _, _, _, _ => rfl
  | .node t oldA lf cs, i, j, a, h => by
    rw [setAttrsInto, nodeAtInto, nodeAtInto]
    exact nodeAtF_setAttrsF_ne cs i j a h
end

mutual
theorem nodeAtF_setAttrsF_eq : ∀ (fs : PMForest) (pos : Nat)
    (a : List (String × String)),
    nodeAtF (setAttrsF fs pos a) pos = (nodeAtF fs pos).map (fun n => withAttrs n a)
  | .nil, _, _ => rfl
  | .cons c rest, pos, a => by
    rw [setAttrsF]
    by_cases h0 : pos = 0
    · rw [if_pos h0, nodeAtF, nodeAtF, if_pos h0, if_pos h0]
      rfl
    · rw [if_neg h0]
      by_cases hlt : pos < nodeSizeN c
      · rw [if_pos hlt, nodeAtF, nodeAtF, if_neg h0, if_neg h0, nodeSizeN_setAttrsInto,
          if_pos hlt, if_pos hlt]
        exact nodeAtInto_setAttrsInto_eq c (pos - 1) a
      · rw [if_neg hlt, nodeAtF, nodeAtF, if_neg h0, if_neg h0, if_neg hlt, if_neg hlt]
        exact nodeAtF_setAttrsF_eq rest (pos - nodeSizeN c) a

theorem nodeAtInto_setAttrsInto_eq : ∀ (c : PMNode) (i : Nat)
    (a : List (String × String)),
    nodeAtInto (setAttrsInto c i a) i = (nodeAtInto c i).map (fun n => withAttrs n a)
  | .text _, _, _ => rfl
  | .node t oldA lf cs, i, a => by
    rw [setAttrsInto, nodeAtInto, nodeAtInto]
    exact nodeAtF_setAttrsF_eq cs i a
end

/-- C7.  Toggling the mode of a citation node updates, in the single
dispatched transaction, both the mode attribute (to the new mode) and
the text attribute (to the converter output on the stored text and
mode), while the key and title attributes of that node are unchanged
and every other position of the document keeps its type name, attribute
record and text content; a position holding no node or a non-citation
node leaves the document unchanged; and on the concrete document
holding the citation with key ABCD1234, text Smith-comma-2020 and
parenthetical mode, toggling to narrative yields narrative mode with
text Smith-parenthesized-2020, and toggling back restores the original
document exactly. -/
theorem C7_toggle_citation_mode :
    (∀ (doc : PMForest) (pos : Nat) (mNew : String) (n : PMNode),
      nodeAtF doc pos = some n → typeNameOf n = "citation" →
      ∃ nTog : PMNode,
        nodeAtF (toggleCitationMode doc pos mNew) pos = some nTog ∧
        typeNameOf nTog = "citation" ∧
        attrOf nTog "key" = attrOf n "key" ∧
        attrOf nTog "title" = attrOf n "title" ∧
        attrOf nTog "mode" = mNew ∧
        attrOf nTog "text" =
          convertTextBetweenModes (attrOf n "text") (attrOf n "mode") mNew) ∧
    (∀ (doc : PMForest) (pos : Nat) (mNew : String) (q : Nat), q ≠ pos →
      (nodeAtF (toggleCitationMode doc pos mNew) q).map nodeShell =
        (nodeAtF doc q).map nodeShell) ∧
    (∀ (doc : PMForest) (pos : Nat) (mNew : String),
      (∀ n, nodeAtF doc pos = some n → typeNameOf n ≠ "citation") →
      toggleCitationMode doc pos mNew = doc) ∧
    (nodeAtF (toggleCitationMode exampleDoc 5 "narrative") 5 =
      some (.node "citation"
        [("key", "ABCD1234"), ("text", "Smith (2020)"), ("title", ""),
          ("mode", "narrative")] true .nil)) ∧
    toggleCitationMode (toggleCitationMode exampleDoc 5 "narrative") 5 "parenthetical" =
      exampleDoc := by
  refine ⟨?_, ?_, ?_, by rfl, by rfl⟩
  · intro doc pos mNew n hn hc
    have htog : toggleCitationMode doc pos mNew =
        setAttrsF doc pos
          (attrsSet (attrsSet (attrsOf n) "mode" mNew) "text"
            (convertTextBetweenModes (attrOf n "text") (attrOf n "mode") mNew)) := by
      unfold toggleCitationMode
      rw [hn]
      dsimp only
      rw [if_pos hc]
    obtain ⟨t, attrs, lf, cs, hnode⟩ : ∃ t attrs lf cs, n = PMNode.node t attrs lf cs := by
      cases n with
      | text s => exact absurd hc (by simp [typeNameOf])
      | node t attrs lf cs => exact ⟨t, attrs, lf, cs, rfl⟩
    refine ⟨withAttrs n
      (attrsSet (attrsSet (attrsOf n) "mode" mNew) "text"
        (convertTextBetweenModes (attrOf n "text") (attrOf n "mode") mNew)), ?_, ?_, ?_, ?_, ?_, ?_⟩
    · rw [htog, nodeAtF_setAttrsF_eq, hn]
      rfl
    · subst hnode
      simpa [withAttrs, typeNameOf] using hc
    · subst hnode
      simp only [withAttrs, attrOf, attrsOf]
      rw [attrsSet_lookup_other _ _ _ _ (by decide), attrsSet_lookup_other _ _ _ _ (by decide)]
    · subst hnode
      simp only [withAttrs, attrOf, attrsOf]
      rw [attrsSet_lookup_other _ _ _ _ (by decide), attrsSet_lookup_other _ _ _ _ (by decide)]
    · subst hnode
      simp only [withAttrs, attrOf, attrsOf]
      rw [attrsSet_lookup_other _ _ _ _ (by decide), attrsSet_lookup_self]
      rfl
    · subst hnode
      simp only [withAttrs, attrOf, attrsOf]
      rw [attrsSet_lookup_self]
      rfl
  · intro doc pos mNew q hq
    unfold toggleCitationMode
    cases hn : nodeAtF doc pos with
    | none => rfl
    | some n =>
      dsimp only
      by_cases hc : typeNameOf n = "citation"
      · rw [if_pos hc]
        exact nodeAtF_setAttrsF_ne doc pos q _ hq
      · rw [if_neg hc]
  · intro doc pos mNew h
    unfold toggleCitationMode
    cases hn : nodeAtF doc pos with
    | none => rfl
    | some n =>
      dsimp only
      rw [if_neg (h n hn)]

/-- Witness for C7: the update part at the concrete citation position
and the frame part at the concrete text position. -/
theorem C7_toggle_citation_mode_witness :
    nodeAtF exampleDoc 5 = some exampleCite ∧
    typeNameOf exampleCite = "citation" ∧
    (∃ nTog : PMNode,
      nodeAtF (toggleCitationMode exampleDoc 5 "narrative") 5 = some nTog ∧
      typeNameOf nTog = "citation" ∧
      attrOf nTog "key" = attrOf exampleCite "key" ∧
      attrOf nTog "title" = attrOf exampleCite "title" ∧
      attrOf nTog "mode" = "narrative" ∧
      attrOf nTog "text" =
        convertTextBetweenModes (attrOf exampleCite "text") (attrOf exampleCite "mode")
          "narrative") ∧
    (1 : Nat) ≠ 5 ∧
    (nodeAtF (toggleCitationMode exampleDoc 5 "narrative") 1).map nodeShell =
      (nodeAtF exampleDoc 1).map nodeShell :=
  ⟨rfl, rfl,
    C7_toggle_citation_mode.1 exampleDoc 5 "narrative" exampleCite rfl rfl,
    by decide,
    C7_toggle_citation_mode.2.1 exampleDoc 5 "narrative" 1 (by decide)⟩

/-! ## The citation key collection -/

theorem pushKeys_append (l1 l2 acc : List String) :
    pushKeys (l1 ++ l2) acc = pushKeys l2 (pushKeys l1 acc) := by
  simp [pushKeys, List.foldl_append]

theorem pushKeys_cons (k : String) (l acc : List String) :
    pushKeys (k :: l) acc =
      pushKeys l (if k ≠ "" ∧ k ∉ acc then acc ++ [k] else acc) := rfl

mutual
theorem collectKeysAux_eq : ∀ (fs : PMForest) (acc : List String),
    collectKeysAux fs acc = pushKeys (keysOf fs) acc
  | .nil, _ => rfl
  | .cons c rest, acc => by
    rw [collectKeysAux, keysOf, descNodesF, List.filterMap_cons]
    rw [collectKeysAux_eq rest _, collectKeysNode_eq c _]
    by_cases hc : typeNameOf c = "citation"
    · rw [if_pos hc]
      dsimp only
      rw [List.filterMap_append, pushKeys_cons, pushKeys_append]
      rw [show collectKeysVisit c acc =
          (if attrOf c "key" ≠ "" ∧ attrOf c "key" ∉ acc then acc ++ [attrOf c "key"]
            else acc) by rw [collectKeysVisit, if_pos hc]]
      rfl
    · rw [if_neg hc]
      dsimp only
      rw [List.filterMap_append, pushKeys_append]
      rw [show collectKeysVisit c acc = acc by rw [collectKeysVisit, if_neg hc]]
      rfl

theorem collectKeysNode_eq : ∀ (c : PMNode) (acc : List String),
    collectKeysNode c acc =
      pushKeys ((descNodesNode c).filterMap
        (fun n => if typeNameOf n = "citation" then some (attrOf n "key") else none)) acc
  | .text _, _ => rfl
  | .node t a lf cs, acc => by
    rw [collectKeysNode, descNodesNode]
    exact collectKeysAux_eq cs acc
end

theorem pushKeys_eq_dedupFilter : ∀ (l acc : List String),
    pushKeys l acc = dedupFirstAux (l.filter (fun k => k ≠ "")) acc := by
  intro l
  induction l with
  | nil => intro acc; rfl
  | cons k ks ih =>
    intro acc
    by_cases hk : k = ""
    · rw [pushKeys_cons, if_neg (by simp [hk]),
        List.filter_cons_of_neg (by simp [hk])]
      exact ih acc
    · rw [pushKeys_cons, List.filter_cons_of_pos (by simpa using hk)]
      rw [show dedupFirstAux (k :: ks.filter (fun x => x ≠ ""))  acc =
          dedupFirstAux (ks.filter (fun x => x ≠ ""))
            (if k ∈ acc then acc else acc ++ [k]) from rfl]
      by_cases hmem : k ∈ acc
      · rw [if_neg (by simp [hmem]), if_pos hmem]
        exact ih acc
      · rw [if_pos ⟨hk, hmem⟩, if_neg hmem]
        exact ih (acc ++ [k])

theorem mem_dedupFirst : ∀ (l : List String) (y : String),
    y ∈ dedupFirst l ↔ y ∈ l := by
  intro l
  induction l with
  | nil => intro y; rfl
  | cons x xs ih =>
    intro y
    rw [dedupFirst]
    constructor
    · intro h
      rcases List.mem_cons.mp h with h1 | h1
      · exact List.mem_cons.mpr (Or.inl h1)
      · exact List.mem_cons.mpr (Or.inr ((ih y).mp (List.mem_filter.mp h1).1))
    · intro h
      rcases List.mem_cons.mp h with h1 | h1
      · exact List.mem_cons.mpr (Or.inl h1)
      · by_cases hy : y = x
        · exact List.mem_cons.mpr (Or.inl hy)
        · exact List.mem_cons.mpr (Or.inr
            (List.mem_filter.mpr ⟨(ih y).mpr h1, by simpa using hy⟩))

theorem filter_swap (p q : String → Bool) (l : List String) :
    (l.filter q).filter p = (l.filter p).filter q := by
  rw [List.filter_filter, List.filter_filter]
  exact List.filter_congr (fun a _ => Bool.and_comm (p a) (q a))

theorem filter_dedupFirst (p : String → Bool) : ∀ (l : List String),
    (dedupFirst l).filter p = dedupFirst (l.filter p) := by
  intro l
  induction l with
  | nil => rfl
  | cons x xs ih =>
    rw [dedupFirst]
    by_cases hp : p x = true
    · rw [List.filter_cons_of_pos hp, List.filter_cons_of_pos hp, dedupFirst, ← ih,
        filter_swap]
    · rw [List.filter_cons_of_neg (by simpa using hp),
        List.filter_cons_of_neg (by simpa using hp), filter_swap, ih]
      apply List.filter_eq_self.mpr
      intro y hy
      have hyl : y ∈ xs.filter p := (mem_dedupFirst _ y).mp hy
      have hpy : p y = true := (List.mem_filter.mp hyl).2
      simp only [ne_eq, decide_eq_true_eq]
      intro he
      rw [he] at hpy
      exact hp hpy

theorem dedupFirstAux_nil_eq (l : List String) :
    dedupFirstAux l [] = dedupFirst l := by
  have key : ∀ (l acc : List String),
      dedupFirstAux l acc = acc ++ dedupFirst (l.filter (fun k => k ∉ acc)) := by
    intro l
    induction l with
    | nil => intro acc; simp [dedupFirstAux, dedupFirst]
    | cons x xs ih =>
      intro acc
      by_cases hx : x ∈ acc
      · rw [show dedupFirstAux (x :: xs) acc =
            dedupFirstAux xs (if x ∈ acc then acc else acc ++ [x]) from rfl,
          if_pos hx, ih acc, List.filter_cons_of_neg (by simpa using hx)]
      · rw [show dedupFirstAux (x :: xs) acc =
            dedupFirstAux xs (if x ∈ acc then acc else acc ++ [x]) from rfl,
          if_neg hx, ih (acc ++ [x]), List.filter_cons_of_pos (by simpa using hx),
          dedupFirst]
        rw [show (acc ++ [x]) ++ dedupFirst (xs.filter (fun k => k ∉ acc ++ [x])) =
          acc ++ (x :: dedupFirst (xs.filter (fun k => k ∉ acc ++ [x]))) by simp]
        congr 2
        rw [filter_dedupFirst]
        congr 1
        rw [List.filter_filter]
        apply List.filter_congr
        intro a _
        simp [List.mem_append, not_or, And.comm]
  rw [key l []]
  simp only [List.nil_append]
  congr 1
  exact List.filter_eq_self.mpr (by intro a _; simp)

theorem nodup_dedupFirst : ∀ l : List String, (dedupFirst l).Nodup := by
  intro l
  induction l with
  | nil => exact List.nodup_nil
  | cons x xs ih =>
    rw [dedupFirst]
    refine List.Nodup.cons ?_ (List.Nodup.filter _ ih)
    intro hx
    have := (List.mem_filter.mp hx).2
    simp at this

/-- C10.  collectCitationKeys returns exactly the depth-first citation
keys of the document with empty keys removed and duplicates
removed keeping the first occurrence; in particular the result never
contains duplicates, and a key belongs to it exactly when it is
non-empty and cited somewhere in the document. -/
theorem C10_collect_citation_keys :
    ∀ doc : PMForest,
      collectCitationKeys doc = dedupFirst ((keysOf doc).filter (fun k => k ≠ "")) ∧
      (collectCitationKeys doc).Nodup ∧
      (∀ k : String, k ∈ collectCitationKeys doc ↔ (k ≠ "" ∧ k ∈ keysOf doc)) := by
  intro doc
  have hmain : collectCitationKeys doc =
      dedupFirst ((keysOf doc).filter (fun k => k ≠ "")) := by
    rw [collectCitationKeys, collectKeysAux_eq doc [], pushKeys_eq_dedupFilter,
      dedupFirstAux_nil_eq]
  refine ⟨hmain, ?_, ?_⟩
  · rw [hmain]
    exact nodup_dedupFirst _
  · intro k
    rw [hmain, mem_dedupFirst, List.mem_filter]
    constructor
    · rintro ⟨hmem, hne⟩
      exact ⟨by simpa using hne, hmem⟩
    · rintro ⟨hne, hmem⟩
      exact ⟨hmem, by simpa using hne⟩
